import Mathlib

/-!
Shallow embedding of the codex SQL-builder core (package `codex` and
`codex/tree/managers`).  The builder mutates a `SelectStatementNode` tree in
place through a "current core" pointer; Go pointers to statements are modelled
as indices into an explicit heap (`Heap`), so that set-operation combinators
can store references to whole statement trees (including the cyclic
self-reference `Union(self.Tree, other.Tree)` creates) and so that mutation
through aliased pointers is faithful.
-/

namespace Codex

/-- The universe of Go `interface{}` values flowing through the builder API:
raw strings and integers, the nil interface value, and the node types of the
`tree/nodes` package as used by `table.go` and `select_manager.go`
(Relation, Column, Star, Attribute, Literal, Grouping, On, Inner/Outer join,
Having, Limit, Offset).  Join nodes carry a nil-able `Right` slot (`null`
until `On` fills it with an On node). -/
inductive Val : Type where
  | null : Val
  | str (s : String) : Val
  | vint (n : Int) : Val
  | relation (name : String) : Val
  | column (name : Val) : Val
  | star : Val
  | attributeNode (name : Val) (rel : Val) : Val
  | literal (v : Val) : Val
  | grouping (e : Val) : Val
  | onNode (e : Val) : Val
  | innerJoin (left : Val) (right : Val) : Val
  | outerJoin (left : Val) (right : Val) : Val
  | havingNode (e : Val) : Val
  | limitNode (n : Int) : Val
  | offsetNode (n : Int) : Val
  deriving DecidableEq, Inhabited

/-- `nodes.JoinSourceNode`: the FROM source of a core — the left relation and
the ordered list of join nodes (`Context.Source.Right` in the manager). -/
structure JoinSourceNode : Type where
  left : Val
  right : List Val
  deriving DecidableEq, Inhabited

/-- `nodes.SelectCoreNode`: one SELECT core — relation, join source,
projections, wheres, groups and a nil-able having clause. -/
structure SelectCoreNode : Type where
  relation : Val
  source : JoinSourceNode
  projections : List Val
  wheres : List Val
  groups : List Val
  having : Val
  deriving DecidableEq, Inhabited

/-- The three binary set-operation kinds. -/
inductive CombKind : Type where
  | union : CombKind
  | intersect : CombKind
  | except : CombKind
  deriving DecidableEq, Inhabited

/-- A combinator node (`nodes.Union` / `Intersect` / `Except`): a binary
set operation over two whole statements, stored by pointer; the Go statement
pointers are modelled as heap indices. -/
structure CombinatorNode : Type where
  kind : CombKind
  left : Nat
  right : Nat
  deriving DecidableEq, Inhabited

/-- `nodes.SelectStatementNode`: the statement root — its cores, the
statement-level orders, nil-able limit/offset, and a nil-able combinator. -/
structure SelectStatementNode : Type where
  cores : List SelectCoreNode
  orders : List Val
  limit : Val
  offset : Val
  combinator : Option CombinatorNode
  deriving DecidableEq, Inhabited

/-- The heap of allocated statement trees; a Go `*SelectStatementNode` is an
index into this list. -/
abbrev Heap := List SelectStatementNode

/-- `managers.SelectManager`: `tree` is the pointer (heap index) to its
`SelectStatementNode`, `context` the index of the current core inside that
statement's `Cores` slice (the Go `Context` field aliases `Tree.Cores[i]`),
and `engine` the private engine field (nil until set). -/
structure SelectManager : Type where
  tree : Nat
  context : Nat
  engine : Val
  deriving DecidableEq, Inhabited

/-- `managers.Accessor`: the closure returned by `Table`, determined by the
Relation node it captures.  Modelled from the spec: the Accessor type itself
is declared outside `src/`; per the spec it is "a callable binding that,
given a column name (string) or an existing node, produces an Attribute node
scoped to a Relation". -/
structure Accessor : Type where
  relation : Val
  deriving DecidableEq, Inhabited

namespace nodes

/-- `nodes.Relation(name)`. -/
def Relation (name : String) : Val := Val.relation name

/-- `nodes.Column(name)` — receives the `interface{}` value. -/
def Column (name : Val) : Val := Val.column name

/-- `nodes.Attribute(name, relation)`. -/
def Attribute (name : Val) (rel : Val) : Val := Val.attributeNode name rel

/-- `nodes.Literal(value)`. -/
def Literal (v : Val) : Val := Val.literal v

/-- `nodes.Grouping(expr)`. -/
def Grouping (e : Val) : Val := Val.grouping e

/-- `nodes.Star()`. -/
def Star : Val := Val.star

/-- `nodes.On(expr)`. -/
def On (e : Val) : Val := Val.onNode e

/-- `nodes.InnerJoin(left, right)` — `right` is nil (`Val.null`) until `On`
fills it. -/
def InnerJoin (l : Val) (r : Val) : Val := Val.innerJoin l r

/-- `nodes.OuterJoin(left, right)`. -/
def OuterJoin (l : Val) (r : Val) : Val := Val.outerJoin l r

/-- `nodes.Having(expr)`. -/
def Having (e : Val) : Val := Val.havingNode e

/-- `nodes.Limit(take)`. -/
def Limit (n : Int) : Val := Val.limitNode n

/-- `nodes.Offset(skip)`. -/
def Offset (n : Int) : Val := Val.offsetNode n

/-- `nodes.Union(left, right)` — stores the two statement pointers. -/
def Union (l : Nat) (r : Nat) : CombinatorNode := ⟨CombKind.union, l, r⟩

/-- `nodes.Intersect(left, right)`. -/
def Intersect (l : Nat) (r : Nat) : CombinatorNode := ⟨CombKind.intersect, l, r⟩

/-- `nodes.Except(left, right)`. -/
def Except (l : Nat) (r : Nat) : CombinatorNode := ⟨CombKind.except, l, r⟩

/-- Modelled from the spec: the `nodes.SelectCore` constructor is not under
`src/`; per the spec a core is created referencing the initial relation, with
the relation as the join source's left side and all other members empty/nil. -/
def SelectCore (rel : Val) : SelectCoreNode :=
  { relation := rel
    source := { left := rel, right := [] }
    projections := []
    wheres := []
    groups := []
    having := Val.null }

/-- Modelled from the spec: the `nodes.SelectStatement` constructor is not
under `src/`; per the spec a statement is "created with exactly one core
referencing the initial relation", with no orders, limit, offset or
combinator. -/
def SelectStatement (rel : Val) : SelectStatementNode :=
  { cores := [SelectCore rel]
    orders := []
    limit := Val.null
    offset := Val.null
    combinator := none }

end nodes

/-- Heap read through a statement pointer (out-of-range reads yield the
zero statement, never reached by code-built managers). -/
def stmtAt (h : Heap) (i : Nat) : SelectStatementNode := h.getD i default

/-- In-place mutation of the statement a pointer refers to. -/
def updStmtAt (h : Heap) (i : Nat) (f : SelectStatementNode → SelectStatementNode) : Heap :=
  h.set i (f (stmtAt h i))

/-- The core the manager's `Context` pointer refers to. -/
def ctxCore (h : Heap) (m : SelectManager) : SelectCoreNode :=
  (stmtAt h m.tree).cores.getD m.context default

/-- In-place mutation through the manager's `Context` pointer: rewrites
`Tree.Cores[context]`, which the Go `Context` field aliases. -/
def updCore (h : Heap) (m : SelectManager) (f : SelectCoreNode → SelectCoreNode) : Heap :=
  updStmtAt h m.tree (fun s => { s with cores := s.cores.set m.context (f (s.cores.getD m.context default)) })

/-- The repeated `if _, ok := x.(string); ok { x = nodes.Literal(x) }` guard
appearing in `Project`, `Where`, `Order`, `Group` and `Having`. -/
def strLit (v : Val) : Val :=
  match v with
  | Val.str _ => nodes.Literal v
  | _ => v

/-- `Accessor` application (`table.go`): a string argument is wrapped in a
Column node then an Attribute scoped to the captured relation; any other
value is wrapped in an Attribute directly. -/
def Accessor.call (a : Accessor) (name : Val) : Val :=
  match name with
  | Val.str _ => nodes.Attribute (nodes.Column name) a.relation
  | _ => nodes.Attribute name a.relation

/-- Modelled from the spec: `Accessor.Relation` is declared outside `src/`;
per the spec `InnerJoin`/`OuterJoin` given an Accessor "extract its bound
Relation". -/
def Accessor.Relation (a : Accessor) : Val := a.relation

/-- `codex.Table(name)` (`table.go`): creates a Relation node and returns the
Accessor closed over it. -/
def Table (name : String) : Accessor := ⟨nodes.Relation name⟩

/-- The dynamic argument accepted by `InnerJoin`/`OuterJoin`: either the
distinct Go type `managers.Accessor`, or any other interface value. -/
inductive TableRef : Type where
  | acc (a : Accessor) : TableRef
  | val (v : Val) : TableRef
  deriving DecidableEq

/-- `SelectManager.Project`: each argument is converted to a Literal when it
is a raw string, then appended to the current core's Projections. -/
def SelectManager.Project (h : Heap) (m : SelectManager) (projections : List Val) :
    Heap × SelectManager :=
  (projections.foldl
    (fun acc p => updCore acc m (fun c => { c with projections := c.projections ++ [strLit p] }))
    h, m)

/-- `SelectManager.Where`: wraps the (string-converted) expression in a
Grouping node and appends it to the current core's Wheres. -/
def SelectManager.Where (h : Heap) (m : SelectManager) (expr : Val) : Heap × SelectManager :=
  (updCore h m (fun c => { c with wheres := c.wheres ++ [nodes.Grouping (strLit expr)] }), m)

/-- `SelectManager.Offset`: replaces the statement-level Offset. -/
def SelectManager.Offset (h : Heap) (m : SelectManager) (skip : Int) : Heap × SelectManager :=
  (updStmtAt h m.tree (fun s => { s with offset := nodes.Offset skip }), m)

/-- `SelectManager.Limit`: replaces the statement-level Limit. -/
def SelectManager.Limit (h : Heap) (m : SelectManager) (take : Int) : Heap × SelectManager :=
  (updStmtAt h m.tree (fun s => { s with limit := nodes.Limit take }), m)

/-- `SelectManager.InnerJoin`: appends `nodes.InnerJoin(rel, nil)` to the
current core's join list when given an Accessor or a Relation node; any
other argument falls through the type switch and nothing is appended. -/
def SelectManager.InnerJoin (h : Heap) (m : SelectManager) (table : TableRef) :
    Heap × SelectManager :=
  match table with
  | TableRef.acc a =>
      (updCore h m (fun c =>
        { c with source := { c.source with right := c.source.right ++ [nodes.InnerJoin (Accessor.Relation a) Val.null] } }), m)
  | TableRef.val (Val.relation n) =>
      (updCore h m (fun c =>
        { c with source := { c.source with right := c.source.right ++ [nodes.InnerJoin (Val.relation n) Val.null] } }), m)
  | TableRef.val _ => (h, m)

/-- `SelectManager.OuterJoin`: as `InnerJoin`, appending an OuterJoin node. -/
def SelectManager.OuterJoin (h : Heap) (m : SelectManager) (table : TableRef) :
    Heap × SelectManager :=
  match table with
  | TableRef.acc a =>
      (updCore h m (fun c =>
        { c with source := { c.source with right := c.source.right ++ [nodes.OuterJoin (Accessor.Relation a) Val.null] } }), m)
  | TableRef.val (Val.relation n) =>
      (updCore h m (fun c =>
        { c with source := { c.source with right := c.source.right ++ [nodes.OuterJoin (Val.relation n) Val.null] } }), m)
  | TableRef.val _ => (h, m)

/-- `SelectManager.On`: early return when the join list is empty; otherwise
the last entry's Right leaf is set to an On node when that entry is an
InnerJoin or OuterJoin node (mutation through the `last` pointer is modelled
by rewriting the last list slot), and nothing happens otherwise. -/
def SelectManager.On (h : Heap) (m : SelectManager) (expr : Val) : Heap × SelectManager :=
  let joins := (ctxCore h m).source.right
  if joins.length = 0 then (h, m)
  else
    match joins.getLast? with
    | some (Val.innerJoin l _) =>
        (updCore h m (fun c =>
          { c with source := { c.source with right := c.source.right.set (c.source.right.length - 1) (Val.innerJoin l (nodes.On expr)) } }), m)
    | some (Val.outerJoin l _) =>
        (updCore h m (fun c =>
          { c with source := { c.source with right := c.source.right.set (c.source.right.length - 1) (Val.outerJoin l (nodes.On expr)) } }), m)
    | _ => (h, m)

/-- `SelectManager.Order`: appends the (string-converted) expression to the
statement-level Orders. -/
def SelectManager.Order (h : Heap) (m : SelectManager) (expr : Val) : Heap × SelectManager :=
  (updStmtAt h m.tree (fun s => { s with orders := s.orders ++ [strLit expr] }), m)

/-- `SelectManager.Group`: appends each (string-converted) argument to the
current core's Groups. -/
def SelectManager.Group (h : Heap) (m : SelectManager) (groupings : List Val) :
    Heap × SelectManager :=
  (groupings.foldl
    (fun acc g => updCore acc m (fun c => { c with groups := c.groups ++ [strLit g] }))
    h, m)

/-- `SelectManager.Having`: replaces the current core's Having member. -/
def SelectManager.Having (h : Heap) (m : SelectManager) (expr : Val) : Heap × SelectManager :=
  (updCore h m (fun c => { c with having := nodes.Having (strLit expr) }), m)

/-- `SelectManager.Union`: sets `self.Tree.Combinator` to
`nodes.Union(self.Tree, manager.Tree)` — a combinator holding the two
statement pointers, no statement copied. -/
def SelectManager.Union (h : Heap) (a : SelectManager) (b : SelectManager) :
    Heap × SelectManager :=
  (updStmtAt h a.tree (fun s => { s with combinator := some (nodes.Union a.tree b.tree) }), a)

/-- `SelectManager.Intersect`: as `Union` with an Intersect combinator. -/
def SelectManager.Intersect (h : Heap) (a : SelectManager) (b : SelectManager) :
    Heap × SelectManager :=
  (updStmtAt h a.tree (fun s => { s with combinator := some (nodes.Intersect a.tree b.tree) }), a)

/-- `SelectManager.Except`: as `Union` with an Except combinator. -/
def SelectManager.Except (h : Heap) (a : SelectManager) (b : SelectManager) :
    Heap × SelectManager :=
  (updStmtAt h a.tree (fun s => { s with combinator := some (nodes.Except a.tree b.tree) }), a)

/-- `SelectManager.Engine`: stores the key only when it is present in the
visitor registry (`if _, ok := VISITORS[engine]; ok`); unknown keys are
silently ignored.  The registry is passed explicitly as the list of
registered keys (see `Accept`). -/
def SelectManager.Engine (reg : List Val) (m : SelectManager) (k : Val) : SelectManager :=
  if k ∈ reg then { m with engine := k } else m

/-- Identifier quoting of the generic renderer. -/
def quoteId (s : String) : String := "\"" ++ s ++ "\""

/-- Modelled from the spec: the visitor package is not under `src/`; this is
the generic to_sql node renderer (identifier quoting, `"rel"."col"`
attributes, parenthesized groupings, join keywords with optional ON clause,
verbatim literals). -/
def renderVal : Val → String
  | Val.null => ""
  | Val.str s => s
  | Val.vint n => toString n
  | Val.relation n => quoteId n
  | Val.column v => quoteId (renderVal v)
  | Val.star => "*"
  | Val.attributeNode n r => renderVal r ++ "." ++ renderVal n
  | Val.literal v => renderVal v
  | Val.grouping e => "(" ++ renderVal e ++ ")"
  | Val.onNode e => "ON " ++ renderVal e
  | Val.innerJoin l r =>
      "INNER JOIN " ++ renderVal l ++ (if r = Val.null then "" else " " ++ renderVal r)
  | Val.outerJoin l r =>
      "LEFT OUTER JOIN " ++ renderVal l ++ (if r = Val.null then "" else " " ++ renderVal r)
  | Val.havingNode e => "HAVING " ++ renderVal e
  | Val.limitNode n => "LIMIT " ++ toString n
  | Val.offsetNode n => "OFFSET " ++ toString n

/-- Modelled from the spec: rendering of one SELECT core — projections, FROM
clause with relation and joins, WHERE, GROUP BY, HAVING. -/
def renderCore (c : SelectCoreNode) : String :=
  "SELECT " ++ String.intercalate ", " (c.projections.map renderVal)
    ++ " FROM " ++ renderVal c.source.left
    ++ String.join (c.source.right.map (fun j => " " ++ renderVal j))
    ++ (if c.wheres = [] then "" else " WHERE " ++ String.intercalate " AND " (c.wheres.map renderVal))
    ++ (if c.groups = [] then "" else " GROUP BY " ++ String.intercalate ", " (c.groups.map renderVal))
    ++ (if c.having = Val.null then "" else " " ++ renderVal c.having)

/-- The keyword a combinator renders between its two operand statements. -/
def combKeyword : CombKind → String
  | CombKind.union => " UNION "
  | CombKind.intersect => " INTERSECT "
  | CombKind.except => " EXCEPT "

/-- Modelled from the spec: statement rendering — cores, then statement-level
ORDER BY / LIMIT / OFFSET, then the combinator (left, keyword, right).
Combinators may reference their own statement (a `Union(self, other)` cycle),
so recursion through statement pointers is bounded by fuel. -/
def renderStmt (h : Heap) : Nat → Nat → String
  | 0, _ => ""
  | fuel + 1, i =>
      let s := stmtAt h i
      let base := String.intercalate " " (s.cores.map renderCore)
        ++ (if s.orders = [] then "" else " ORDER BY " ++ String.intercalate ", " (s.orders.map renderVal))
        ++ (if s.limit = Val.null then "" else " " ++ renderVal s.limit)
        ++ (if s.offset = Val.null then "" else " " ++ renderVal s.offset)
      match s.combinator with
      | none => base
      | some c => renderStmt h fuel c.left ++ combKeyword c.kind ++ renderStmt h fuel c.right

/-- Modelled from the spec: `VISITORS[key].Accept(tree)` for a registered
key.  All registered keys dispatch to the generic renderer; per the spec the
dialects differ only in text-generation details no claim depends on. -/
def Accept (h : Heap) (i : Nat) : String := renderStmt h (h.length + 1) i

/-- The `(string, error)` pair `ToSql` returns. -/
abbrev SqlResult := Except String String

/-- The render-time default-projection injection of `ToSql`: a core whose
Projections slice is still empty receives `Attribute(Star, core.Relation)`. -/
def injectStar (c : SelectCoreNode) : SelectCoreNode :=
  if c.projections = [] then
    { c with projections := c.projections ++ [nodes.Attribute nodes.Star c.relation] }
  else c

/-- The engine key `ToSql` dispatches on: the stored engine, defaulting to
`"to_sql"` when it is still nil. -/
def effectiveEngine (m : SelectManager) : Val :=
  if m.engine = Val.null then Val.str "to_sql" else m.engine

/-- `SelectManager.ToSql`: injects the star default projection into every
still-empty core of its tree, defaults a nil engine to `"to_sql"`, then
dispatches `VISITORS[engine].Accept(tree)`.  The registry lookup is modelled
from the spec (the `VISITORS` table is not under `src/`): an unregistered
effective key at render time surfaces as an error return. -/
def SelectManager.ToSql (reg : List Val) (h : Heap) (m : SelectManager) :
    Heap × SelectManager × SqlResult :=
  let h1 := updStmtAt h m.tree (fun s => { s with cores := s.cores.map injectStar })
  let m1 := { m with engine := effectiveEngine m }
  if m1.engine ∈ reg then (h1, m1, Except.ok (Accept h1 m1.tree))
  else (h1, m1, Except.error "codex: engine is not registered")

/-- `managers.Selection(relation)`: allocates a new statement seeded by
`nodes.SelectStatement(relation)` and points the manager's `Context` at
`Tree.Cores[0]`. -/
def Selection (h : Heap) (relation : Val) : Heap × SelectManager :=
  (h ++ [nodes.SelectStatement relation],
   { tree := h.length, context := 0, engine := Val.null })

/-! ### List helper lemmas -/

theorem list_getD_oob {α : Type} :
    ∀ (l : List α) (i : Nat) (d : α), l.length ≤ i → l.getD i d = d := by
  intro l
  induction l with
  | nil => intro i d _; cases i <;> rfl
  | cons a t ih =>
      intro i d hi
      cases i with
      | zero => simp at hi
      | succ n => simpa [List.getD] using ih n d (by simpa using hi)

theorem list_set_oob {α : Type} :
    ∀ (l : List α) (i : Nat) (a : α), l.length ≤ i → l.set i a = l := by
  intro l
  induction l with
  | nil => intro i a _; rfl
  | cons x t ih =>
      intro i a hi
      cases i with
      | zero => simp at hi
      | succ n => simpa using ih n a (by simpa using hi)

theorem list_getD_set_eq {α : Type} :
    ∀ (l : List α) (i : Nat) (a d : α), i < l.length → (l.set i a).getD i d = a := by
  intro l
  induction l with
  | nil => intro i a d hi; simp at hi
  | cons x t ih =>
      intro i a d hi
      cases i with
      | zero => rfl
      | succ n => simpa [List.getD] using ih n a d (by simpa using hi)

theorem list_getD_set_ne {α : Type} :
    ∀ (l : List α) (i j : Nat) (a d : α), i ≠ j → (l.set i a).getD j d = l.getD j d := by
  intro l
  induction l with
  | nil => intro i j a d _; rfl
  | cons x t ih =>
      intro i j a d hij
      cases i with
      | zero =>
          cases j with
          | zero => exact absurd rfl hij
          | succ k => rfl
      | succ n =>
          cases j with
          | zero => rfl
          | succ k => simpa [List.getD] using ih n k a d (fun e => hij (by rw [e]))

theorem list_set_getD_self {α : Type} :
    ∀ (l : List α) (i : Nat) (d : α), i < l.length → l.set i (l.getD i d) = l := by
  intro l
  induction l with
  | nil => intro i d hi; simp at hi
  | cons x t ih =>
      intro i d hi
      cases i with
      | zero => rfl
      | succ n => simpa [List.getD] using ih n d (by simpa using hi)

theorem list_getD_append_len {α : Type} :
    ∀ (l : List α) (a d : α), (l ++ [a]).getD l.length d = a := by
  intro l
  induction l with
  | nil => intro a d; rfl
  | cons x t ih => intro a d; simp [List.getD, ih a d]

theorem list_getLast?_concat {α : Type} :
    ∀ (l : List α) (a : α), (l ++ [a]).getLast? = some a := by
  intro l
  induction l with
  | nil => intro a; rfl
  | cons x t ih =>
      intro a
      rw [List.cons_append, List.getLast?_cons]
      simp [ih a]

theorem list_set_len_concat {α : Type} :
    ∀ (l : List α) (a b : α), (l ++ [a]).set l.length b = l ++ [b] := by
  intro l
  induction l with
  | nil => intro a b; rfl
  | cons x t ih => intro a b; simp [ih a b]

theorem list_map_eq_self {α : Type} :
    ∀ (l : List α) (f : α → α), (∀ x ∈ l, f x = x) → l.map f = l := by
  intro l
  induction l with
  | nil => intro f _; rfl
  | cons x t ih =>
      intro f hf
      simp only [List.map_cons]
      rw [hf x (by simp), ih f (fun y hy => hf y (by simp [hy]))]

theorem list_getD_map {α β : Type} :
    ∀ (l : List α) (f : α → β) (i : Nat) (d : α) (d' : β), i < l.length →
      (l.map f).getD i d' = f (l.getD i d) := by
  intro l
  induction l with
  | nil => intro f i d d' hi; simp at hi
  | cons x t ih =>
      intro f i d d' hi
      cases i with
      | zero => rfl
      | succ n => simpa [List.getD] using ih f n d d' (by simpa using hi)

/-! ### Structural lemmas about the embedded operations -/

theorem length_updStmtAt (h : Heap) (i : Nat) (f : SelectStatementNode → SelectStatementNode) :
    (updStmtAt h i f).length = h.length := by
  simp [updStmtAt]

theorem stmtAt_updStmtAt_eq (h : Heap) (i : Nat) (f : SelectStatementNode → SelectStatementNode)
    (hi : i < h.length) : stmtAt (updStmtAt h i f) i = f (stmtAt h i) := by
  unfold stmtAt updStmtAt
  exact list_getD_set_eq _ _ _ _ hi

theorem stmtAt_updStmtAt_ne (h : Heap) (i j : Nat) (f : SelectStatementNode → SelectStatementNode)
    (hij : i ≠ j) : stmtAt (updStmtAt h i f) j = stmtAt h j := by
  unfold stmtAt updStmtAt
  exact list_getD_set_ne _ _ _ _ _ hij

theorem ctxCore_updCore (h : Heap) (m : SelectManager) (f : SelectCoreNode → SelectCoreNode)
    (ht : m.tree < h.length) (hc : m.context < (stmtAt h m.tree).cores.length) :
    ctxCore (updCore h m f) m = f (ctxCore h m) := by
  unfold ctxCore updCore
  rw [stmtAt_updStmtAt_eq _ _ _ ht]
  exact list_getD_set_eq _ _ _ _ hc

theorem length_updCore (h : Heap) (m : SelectManager) (f : SelectCoreNode → SelectCoreNode) :
    (updCore h m f).length = h.length := by
  simp [updCore, length_updStmtAt]

theorem cores_length_updCore (h : Heap) (m : SelectManager) (f : SelectCoreNode → SelectCoreNode)
    (ht : m.tree < h.length) :
    (stmtAt (updCore h m f) m.tree).cores.length = (stmtAt h m.tree).cores.length := by
  unfold updCore
  rw [stmtAt_updStmtAt_eq _ _ _ ht]
  simp

theorem injectStar_of_ne (c : SelectCoreNode) (hc : c.projections ≠ []) : injectStar c = c := by
  unfold injectStar
  simp [hc]

theorem injectStar_projections_ne (c : SelectCoreNode) : (injectStar c).projections ≠ [] := by
  unfold injectStar
  by_cases hc : c.projections = [] <;> simp [hc]

theorem injectStar_idem (c : SelectCoreNode) : injectStar (injectStar c) = injectStar c :=
  injectStar_of_ne _ (injectStar_projections_ne c)

theorem toSql_heap (reg : List Val) (h : Heap) (m : SelectManager) :
    (SelectManager.ToSql reg h m).1
      = updStmtAt h m.tree (fun s => { s with cores := s.cores.map injectStar }) := by
  unfold SelectManager.ToSql
  dsimp only
  split <;> rfl

theorem toSql_mgr (reg : List Val) (h : Heap) (m : SelectManager) :
    (SelectManager.ToSql reg h m).2.1 = { m with engine := effectiveEngine m } := by
  unfold SelectManager.ToSql
  dsimp only
  split <;> rfl

theorem toSql_res (reg : List Val) (h : Heap) (m : SelectManager) :
    (SelectManager.ToSql reg h m).2.2
      = if effectiveEngine m ∈ reg then
          Except.ok (Accept (SelectManager.ToSql reg h m).1 m.tree)
        else Except.error "codex: engine is not registered" := by
  rw [toSql_heap]
  unfold SelectManager.ToSql
  dsimp only
  split <;> rfl

theorem effectiveEngine_ne_null (m : SelectManager) : effectiveEngine m ≠ Val.null := by
  unfold effectiveEngine
  split
  · intro hh; cases hh
  · assumption

theorem map_injectStar_invol (l : List SelectCoreNode) :
    (l.map injectStar).map injectStar = l.map injectStar := by
  apply list_map_eq_self
  intro x hx
  rcases List.mem_map.mp hx with ⟨y, _, rfl⟩
  exact injectStar_idem y

theorem updStmtAt_twice (h : Heap) (i : Nat) (f : SelectStatementNode → SelectStatementNode)
    (hf : ∀ s, f (f s) = f s) :
    updStmtAt (updStmtAt h i f) i f = updStmtAt h i f := by
  by_cases hi : i < h.length
  · have h2 : stmtAt (updStmtAt h i f) i = f (stmtAt h i) := stmtAt_updStmtAt_eq h i f hi
    show (updStmtAt h i f).set i (f (stmtAt (updStmtAt h i f) i)) = updStmtAt h i f
    rw [h2, hf]
    show (h.set i (f (stmtAt h i))).set i (f (stmtAt h i)) = h.set i (f (stmtAt h i))
    rw [List.set_set]
  · have hle : h.length ≤ i := Nat.le_of_not_lt hi
    have he : updStmtAt h i f = h := by
      show h.set i (f (stmtAt h i)) = h
      exact list_set_oob _ _ _ hle
    rw [he]
    exact he

theorem toSql_double_heap (reg reg' : List Val) (h : Heap) (m m' : SelectManager)
    (hm : m'.tree = m.tree) :
    (SelectManager.ToSql reg' (SelectManager.ToSql reg h m).1 m').1
      = (SelectManager.ToSql reg h m).1 := by
  rw [toSql_heap, hm, toSql_heap]
  apply updStmtAt_twice
  intro s
  dsimp only
  rw [map_injectStar_invol]

/-! ### Claim theorems -/

/-- Claim C1: when `ToSql()` is called, every core in the builder's statement
tree whose Projections list is empty has `Attribute(Star, core.Relation)`
appended to its Projections before the visitor is dispatched (the successful
output is the visitor applied to the already-mutated tree), and cores with
non-empty Projections are left unchanged by this step. -/
theorem C1_toSql_star_default (reg : List Val) (h : Heap) (m : SelectManager) :
    ((stmtAt (SelectManager.ToSql reg h m).1 m.tree).cores
        = (stmtAt h m.tree).cores.map injectStar)
    ∧ (∀ c : SelectCoreNode, c.projections = [] →
        injectStar c = { c with projections := [nodes.Attribute nodes.Star c.relation] })
    ∧ (∀ c : SelectCoreNode, c.projections ≠ [] → injectStar c = c)
    ∧ (effectiveEngine m ∈ reg →
        (SelectManager.ToSql reg h m).2.2
          = Except.ok (Accept (SelectManager.ToSql reg h m).1 m.tree)) := by
  refine ⟨?_, ?_, ?_, ?_⟩
  · rw [toSql_heap]
    by_cases ht : m.tree < h.length
    · rw [stmtAt_updStmtAt_eq _ _ _ ht]
    · have hle : h.length ≤ m.tree := Nat.le_of_not_lt ht
      unfold updStmtAt
      rw [list_set_oob _ _ _ hle]
      unfold stmtAt
      rw [list_getD_oob _ _ _ hle]
      decide
  · intro c hc
    unfold injectStar
    rw [if_pos hc, hc]
    rfl
  · exact fun c hc => injectStar_of_ne c hc
  · intro hmem
    rw [toSql_res, if_pos hmem]

/-- Claim C1 witness: on the fresh `users` builder the star default is
injected and the dispatched output is the render of the mutated tree. -/
theorem C1_toSql_star_default_witness :
    (injectStar (nodes.SelectCore (nodes.Relation "users"))
      = { nodes.SelectCore (nodes.Relation "users") with
            projections := [nodes.Attribute nodes.Star (nodes.Relation "users")] })
    ∧ ((SelectManager.ToSql [Val.str "to_sql"] (Selection [] (nodes.Relation "users")).1
          (Selection [] (nodes.Relation "users")).2).2.2
        = Except.ok (Accept (SelectManager.ToSql [Val.str "to_sql"]
            (Selection [] (nodes.Relation "users")).1
            (Selection [] (nodes.Relation "users")).2).1
            (Selection [] (nodes.Relation "users")).2.tree)) := by
  have H := C1_toSql_star_default [Val.str "to_sql"] (Selection [] (nodes.Relation "users")).1
    (Selection [] (nodes.Relation "users")).2
  exact ⟨H.2.1 _ (by decide), H.2.2.2 (by decide)⟩

/-- Claim C4: two consecutive `ToSql()` calls with no intervening mutation
return identical results (byte-identical strings, identical errors). -/
theorem C4_toSql_idempotent (reg : List Val) (h : Heap) (m : SelectManager) :
    (SelectManager.ToSql reg (SelectManager.ToSql reg h m).1
        (SelectManager.ToSql reg h m).2.1).2.2
      = (SelectManager.ToSql reg h m).2.2 := by
  have hm : ((SelectManager.ToSql reg h m).2.1).tree = m.tree := by rw [toSql_mgr]
  have he : effectiveEngine (SelectManager.ToSql reg h m).2.1 = effectiveEngine m := by
    rw [toSql_mgr]
    show (if effectiveEngine m = Val.null then Val.str "to_sql" else effectiveEngine m)
      = effectiveEngine m
    rw [if_neg (effectiveEngine_ne_null m)]
  rw [toSql_res reg ((SelectManager.ToSql reg h m).1) ((SelectManager.ToSql reg h m).2.1),
    toSql_res reg h m, he, toSql_double_heap reg reg h m _ hm, hm]

/-- Claim C5: `Engine(key)` with a key absent from the visitor registry is a
silent no-op on the stored engine, whereas a `ToSql()` call whose effective
engine key is unregistered returns an error value. -/
theorem C5_engine_asymmetry (reg : List Val) (h : Heap) (m : SelectManager) (k : Val) :
    (k ∉ reg → SelectManager.Engine reg m k = m)
    ∧ (effectiveEngine m ∉ reg →
        (SelectManager.ToSql reg h m).2.2
          = Except.error "codex: engine is not registered") := by
  constructor
  · intro hk
    unfold SelectManager.Engine
    rw [if_neg hk]
  · intro hk
    rw [toSql_res, if_neg hk]

/-- Claim C5 witness: with an empty registry, `Engine("postgres")` leaves the
fresh builder unchanged and `ToSql()` returns an error value. -/
theorem C5_engine_asymmetry_witness :
    (SelectManager.Engine [] (Selection [] (nodes.Relation "users")).2 (Val.str "postgres")
      = (Selection [] (nodes.Relation "users")).2)
    ∧ ((SelectManager.ToSql [] (Selection [] (nodes.Relation "users")).1
          (Selection [] (nodes.Relation "users")).2).2.2
        = Except.error "codex: engine is not registered") := by
  have H := C5_engine_asymmetry [] (Selection [] (nodes.Relation "users")).1
    (Selection [] (nodes.Relation "users")).2 (Val.str "postgres")
  exact ⟨H.1 (by decide), H.2 (by decide)⟩

/-- Claim C8: `Table(name)` binds a Relation, and the builder construction
seeds a SelectStatement with exactly one core referencing that Relation, that
single core being the current mutation target (`Context = Tree.Cores[0]`). -/
theorem C8_table_seeds_one_core (name : String) (h : Heap) :
    (Accessor.Relation (Table name) = Val.relation name)
    ∧ ((stmtAt (Selection h (Accessor.Relation (Table name))).1
          (Selection h (Accessor.Relation (Table name))).2.tree).cores
        = [nodes.SelectCore (Val.relation name)])
    ∧ ((Selection h (Accessor.Relation (Table name))).2.context = 0)
    ∧ (ctxCore (Selection h (Accessor.Relation (Table name))).1
          (Selection h (Accessor.Relation (Table name))).2
        = nodes.SelectCore (Val.relation name))
    ∧ ((nodes.SelectCore (Val.relation name)).relation = Val.relation name) := by
  have hst : stmtAt (Selection h (Accessor.Relation (Table name))).1
      (Selection h (Accessor.Relation (Table name))).2.tree
      = nodes.SelectStatement (Val.relation name) := by
    unfold Selection stmtAt
    exact list_getD_append_len h _ _
  refine ⟨rfl, ?_, rfl, ?_, rfl⟩
  · rw [hst]
    rfl
  · unfold ctxCore
    rw [hst]
    rfl

/-- Claim C9: the Accessor bound by `Table(name)` wraps a string argument in
a Column node then an Attribute scoped to the bound relation, and wraps any
non-string value directly in an Attribute; it is a pure function of its
argument (two calls with the same argument are the same value). -/
theorem C9_accessor_wrapping (name s : String) (v : Val) :
    (Accessor.call (Table name) (Val.str s)
      = nodes.Attribute (nodes.Column (Val.str s)) (nodes.Relation name))
    ∧ ((∀ t : String, v ≠ Val.str t) →
        Accessor.call (Table name) v = nodes.Attribute v (nodes.Relation name)) := by
  constructor
  · rfl
  · intro hv
    cases v with
    | str t => exact absurd rfl (hv t)
    | null => rfl
    | vint n => rfl
    | relation n => rfl
    | column n => rfl
    | star => rfl
    | attributeNode n r => rfl
    | literal n => rfl
    | grouping n => rfl
    | onNode n => rfl
    | innerJoin l r => rfl
    | outerJoin l r => rfl
    | havingNode n => rfl
    | limitNode n => rfl
    | offsetNode n => rfl

/-- Claim C9 witness: the `users` Accessor wraps a Star marker directly. -/
theorem C9_accessor_wrapping_witness :
    Accessor.call (Table "users") Val.star
      = nodes.Attribute Val.star (nodes.Relation "users") :=
  (C9_accessor_wrapping "users" "id" Val.star).2 (by intro t ht; cases ht)

/-- Claim C3 counterexample: on the fresh `users` builder (empty Projections,
nil engine), `ToSql()` is not side-effect-free — it mutates the core's
Projections (star injection) and the stored engine (default), so the claim
fails at this concrete input. -/
theorem C3_toSql_pure_counterexample :
    ¬ ((SelectManager.ToSql [Val.str "to_sql"] (Selection [] (nodes.Relation "users")).1
          (Selection [] (nodes.Relation "users")).2).1
        = (Selection [] (nodes.Relation "users")).1
      ∧ (SelectManager.ToSql [Val.str "to_sql"] (Selection [] (nodes.Relation "users")).1
          (Selection [] (nodes.Relation "users")).2).2.1
        = (Selection [] (nodes.Relation "users")).2) := by
  intro hcon
  have hh := congrArg (fun h : Heap => (stmtAt h 0).cores.map (fun c => c.projections)) hcon.1
  revert hh
  decide

/-- Claim C3 (amended): `ToSql()` is side-effect-free on the builder's state
except for its two documented render-time effects — star injection into
still-empty cores and defaulting a nil engine; on a builder whose cores all
have non-empty Projections and whose engine is already set, the statement
tree and the engine selection are exactly what they were before the call. -/
theorem C3_toSql_pure_when_saturated (reg : List Val) (h : Heap) (m : SelectManager)
    (hc : ∀ c ∈ (stmtAt h m.tree).cores, c.projections ≠ [])
    (he : m.engine ≠ Val.null) :
    (SelectManager.ToSql reg h m).1 = h ∧ (SelectManager.ToSql reg h m).2.1 = m := by
  constructor
  · rw [toSql_heap]
    have hmap : (stmtAt h m.tree).cores.map injectStar = (stmtAt h m.tree).cores :=
      list_map_eq_self _ _ (fun c hcm => injectStar_of_ne c (hc c hcm))
    show h.set m.tree { stmtAt h m.tree with cores := (stmtAt h m.tree).cores.map injectStar } = h
    rw [hmap]
    by_cases ht : m.tree < h.length
    · exact list_set_getD_self h m.tree default ht
    · exact list_set_oob _ _ _ (Nat.le_of_not_lt ht)
  · rw [toSql_mgr]
    show ({ m with engine := if m.engine = Val.null then Val.str "to_sql" else m.engine }
      : SelectManager) = m
    rw [if_neg he]

/-- Claim C3 witness (amended claim): a builder with a projected column and a
selected engine is untouched by `ToSql()`. -/
theorem C3_toSql_pure_when_saturated_witness :
    (SelectManager.ToSql [Val.str "to_sql"]
        (SelectManager.Project (Selection [] (nodes.Relation "users")).1
          (Selection [] (nodes.Relation "users")).2 [Val.str "id"]).1
        (SelectManager.Engine [Val.str "to_sql"]
          (Selection [] (nodes.Relation "users")).2 (Val.str "to_sql"))).1
      = (SelectManager.Project (Selection [] (nodes.Relation "users")).1
          (Selection [] (nodes.Relation "users")).2 [Val.str "id"]).1
    ∧ (SelectManager.ToSql [Val.str "to_sql"]
        (SelectManager.Project (Selection [] (nodes.Relation "users")).1
          (Selection [] (nodes.Relation "users")).2 [Val.str "id"]).1
        (SelectManager.Engine [Val.str "to_sql"]
          (Selection [] (nodes.Relation "users")).2 (Val.str "to_sql"))).2.1
      = SelectManager.Engine [Val.str "to_sql"]
          (Selection [] (nodes.Relation "users")).2 (Val.str "to_sql") :=
  C3_toSql_pure_when_saturated [Val.str "to_sql"] _ _ (by decide) (by decide)

/-- Claim C7: `Union` (likewise `Intersect` and `Except`) sets the calling
builder's statement Combinator to a binary node holding references (heap
pointers) to `self`'s tree and `other`'s tree — no statement is copied (the
heap length is unchanged) — and changes nothing else in either builder: every
other heap slot is untouched and the returned manager is `self` itself. -/
theorem C7_combinators_by_reference (h : Heap) (a b : SelectManager)
    (ha : a.tree < h.length) :
    ((SelectManager.Union h a b).2 = a
      ∧ (SelectManager.Union h a b).1.length = h.length
      ∧ stmtAt (SelectManager.Union h a b).1 a.tree
          = { stmtAt h a.tree with combinator := some (nodes.Union a.tree b.tree) }
      ∧ ∀ j, j ≠ a.tree → stmtAt (SelectManager.Union h a b).1 j = stmtAt h j)
    ∧ ((SelectManager.Intersect h a b).2 = a
      ∧ (SelectManager.Intersect h a b).1.length = h.length
      ∧ stmtAt (SelectManager.Intersect h a b).1 a.tree
          = { stmtAt h a.tree with combinator := some (nodes.Intersect a.tree b.tree) }
      ∧ ∀ j, j ≠ a.tree → stmtAt (SelectManager.Intersect h a b).1 j = stmtAt h j)
    ∧ ((SelectManager.Except h a b).2 = a
      ∧ (SelectManager.Except h a b).1.length = h.length
      ∧ stmtAt (SelectManager.Except h a b).1 a.tree
          = { stmtAt h a.tree with combinator := some (nodes.Except a.tree b.tree) }
      ∧ ∀ j, j ≠ a.tree → stmtAt (SelectManager.Except h a b).1 j = stmtAt h j) := by
  unfold SelectManager.Union SelectManager.Intersect SelectManager.Except
  dsimp only
  refine ⟨⟨rfl, ?_, ?_, ?_⟩, ⟨rfl, ?_, ?_, ?_⟩, ⟨rfl, ?_, ?_, ?_⟩⟩
  · exact length_updStmtAt h a.tree _
  · exact stmtAt_updStmtAt_eq h a.tree _ ha
  · exact fun j hj => stmtAt_updStmtAt_ne h a.tree j _ (fun e => hj e.symm)
  · exact length_updStmtAt h a.tree _
  · exact stmtAt_updStmtAt_eq h a.tree _ ha
  · exact fun j hj => stmtAt_updStmtAt_ne h a.tree j _ (fun e => hj e.symm)
  · exact length_updStmtAt h a.tree _
  · exact stmtAt_updStmtAt_eq h a.tree _ ha
  · exact fun j hj => stmtAt_updStmtAt_ne h a.tree j _ (fun e => hj e.symm)

/-- Claim C7 witness: `users.Union(admins)` on a two-statement heap stores
the combinator holding both statement references, leaves the heap length
unchanged, and leaves `admins`' statement slot untouched. -/
theorem C7_combinators_by_reference_witness :
    ((SelectManager.Union
        (Selection (Selection [] (nodes.Relation "users")).1 (nodes.Relation "admins")).1
        (Selection [] (nodes.Relation "users")).2
        (Selection (Selection [] (nodes.Relation "users")).1 (nodes.Relation "admins")).2).2
      = (Selection [] (nodes.Relation "users")).2)
    ∧ stmtAt (SelectManager.Union
        (Selection (Selection [] (nodes.Relation "users")).1 (nodes.Relation "admins")).1
        (Selection [] (nodes.Relation "users")).2
        (Selection (Selection [] (nodes.Relation "users")).1 (nodes.Relation "admins")).2).1 1
      = stmtAt (Selection (Selection [] (nodes.Relation "users")).1 (nodes.Relation "admins")).1 1 := by
  have H := C7_combinators_by_reference
    (Selection (Selection [] (nodes.Relation "users")).1 (nodes.Relation "admins")).1
    (Selection [] (nodes.Relation "users")).2
    (Selection (Selection [] (nodes.Relation "users")).1 (nodes.Relation "admins")).2
    (by decide)
  exact ⟨H.1.1, H.1.2.2.2 1 (by decide)⟩

/-- Claim C6: `InnerJoin(table)` and `OuterJoin(table)` append exactly one
new join node with a nil right side to the current core's join list when
`table` is an Accessor or a Relation node (leaving every other member of the
core unchanged), and for an argument of any other dynamic type they leave the
entire builder state unchanged, returning the builder without error in every
case. -/
theorem C6_join_append_or_noop (h : Heap) (m : SelectManager)
    (ht : m.tree < h.length) (hc : m.context < (stmtAt h m.tree).cores.length) :
    (∀ a : Accessor,
        (SelectManager.InnerJoin h m (TableRef.acc a)).2 = m
        ∧ ctxCore (SelectManager.InnerJoin h m (TableRef.acc a)).1 m
            = { ctxCore h m with source :=
                { (ctxCore h m).source with right :=
                    (ctxCore h m).source.right ++ [Val.innerJoin (Accessor.Relation a) Val.null] } })
    ∧ (∀ n : String,
        (SelectManager.InnerJoin h m (TableRef.val (Val.relation n))).2 = m
        ∧ ctxCore (SelectManager.InnerJoin h m (TableRef.val (Val.relation n))).1 m
            = { ctxCore h m with source :=
                { (ctxCore h m).source with right :=
                    (ctxCore h m).source.right ++ [Val.innerJoin (Val.relation n) Val.null] } })
    ∧ (∀ v : Val, (∀ n : String, v ≠ Val.relation n) →
        SelectManager.InnerJoin h m (TableRef.val v) = (h, m))
    ∧ (∀ a : Accessor,
        (SelectManager.OuterJoin h m (TableRef.acc a)).2 = m
        ∧ ctxCore (SelectManager.OuterJoin h m (TableRef.acc a)).1 m
            = { ctxCore h m with source :=
                { (ctxCore h m).source with right :=
                    (ctxCore h m).source.right ++ [Val.outerJoin (Accessor.Relation a) Val.null] } })
    ∧ (∀ n : String,
        (SelectManager.OuterJoin h m (TableRef.val (Val.relation n))).2 = m
        ∧ ctxCore (SelectManager.OuterJoin h m (TableRef.val (Val.relation n))).1 m
            = { ctxCore h m with source :=
                { (ctxCore h m).source with right :=
                    (ctxCore h m).source.right ++ [Val.outerJoin (Val.relation n) Val.null] } })
    ∧ (∀ v : Val, (∀ n : String, v ≠ Val.relation n) →
        SelectManager.OuterJoin h m (TableRef.val v) = (h, m)) := by
  refine ⟨?_, ?_, ?_, ?_, ?_, ?_⟩
  · intro a
    refine ⟨rfl, ?_⟩
    show ctxCore (updCore h m (fun c =>
      { c with source := { c.source with right :=
          c.source.right ++ [nodes.InnerJoin (Accessor.Relation a) Val.null] } })) m = _
    exact ctxCore_updCore h m _ ht hc
  · intro n
    refine ⟨rfl, ?_⟩
    show ctxCore (updCore h m (fun c =>
      { c with source := { c.source with right :=
          c.source.right ++ [nodes.InnerJoin (Val.relation n) Val.null] } })) m = _
    exact ctxCore_updCore h m _ ht hc
  · intro v hv
    cases v with
    | relation n => exact absurd rfl (hv n)
    | null => rfl
    | str s => rfl
    | vint n => rfl
    | column n => rfl
    | star => rfl
    | attributeNode n r => rfl
    | literal n => rfl
    | grouping n => rfl
    | onNode n => rfl
    | innerJoin l r => rfl
    | outerJoin l r => rfl
    | havingNode n => rfl
    | limitNode n => rfl
    | offsetNode n => rfl
  · intro a
    refine ⟨rfl, ?_⟩
    show ctxCore (updCore h m (fun c =>
      { c with source := { c.source with right :=
          c.source.right ++ [nodes.OuterJoin (Accessor.Relation a) Val.null] } })) m = _
    exact ctxCore_updCore h m _ ht hc
  · intro n
    refine ⟨rfl, ?_⟩
    show ctxCore (updCore h m (fun c =>
      { c with source := { c.source with right :=
          c.source.right ++ [nodes.OuterJoin (Val.relation n) Val.null] } })) m = _
    exact ctxCore_updCore h m _ ht hc
  · intro v hv
    cases v with
    | relation n => exact absurd rfl (hv n)
    | null => rfl
    | str s => rfl
    | vint n => rfl
    | column n => rfl
    | star => rfl
    | attributeNode n r => rfl
    | literal n => rfl
    | grouping n => rfl
    | onNode n => rfl
    | innerJoin l r => rfl
    | outerJoin l r => rfl
    | havingNode n => rfl
    | limitNode n => rfl
    | offsetNode n => rfl

/-- Claim C6 witness: on the fresh `users` builder, `InnerJoin` of an
Accessor appends one pending join and `InnerJoin` of a plain string is a
complete no-op. -/
theorem C6_join_append_or_noop_witness :
    (ctxCore (SelectManager.InnerJoin (Selection [] (nodes.Relation "users")).1
        (Selection [] (nodes.Relation "users")).2 (TableRef.acc (Table "orders"))).1
        (Selection [] (nodes.Relation "users")).2
      = { ctxCore (Selection [] (nodes.Relation "users")).1
            (Selection [] (nodes.Relation "users")).2 with source :=
          { (ctxCore (Selection [] (nodes.Relation "users")).1
              (Selection [] (nodes.Relation "users")).2).source with right :=
              (ctxCore (Selection [] (nodes.Relation "users")).1
                (Selection [] (nodes.Relation "users")).2).source.right
                ++ [Val.innerJoin (Accessor.Relation (Table "orders")) Val.null] } })
    ∧ SelectManager.InnerJoin (Selection [] (nodes.Relation "users")).1
        (Selection [] (nodes.Relation "users")).2 (TableRef.val (Val.str "orders"))
      = ((Selection [] (nodes.Relation "users")).1, (Selection [] (nodes.Relation "users")).2) := by
  have H := C6_join_append_or_noop (Selection [] (nodes.Relation "users")).1
    (Selection [] (nodes.Relation "users")).2 (by decide) (by decide)
  exact ⟨(H.1 (Table "orders")).2, H.2.2.1 (Val.str "orders") (by intro n hn; cases hn)⟩

theorem on_eq_of_last_inner (h : Heap) (m : SelectManager) (e : Val) (l r : Val)
    (hlast : (ctxCore h m).source.right.getLast? = some (Val.innerJoin l r))
    (hne : (ctxCore h m).source.right.length ≠ 0) :
    SelectManager.On h m e
      = (updCore h m (fun c =>
          { c with source := { c.source with right := c.source.right.set (c.source.right.length - 1) (Val.innerJoin l (nodes.On e)) } }), m) := by
  unfold SelectManager.On
  dsimp only
  rw [if_neg hne, hlast]

theorem on_eq_of_last_outer (h : Heap) (m : SelectManager) (e : Val) (l r : Val)
    (hlast : (ctxCore h m).source.right.getLast? = some (Val.outerJoin l r))
    (hne : (ctxCore h m).source.right.length ≠ 0) :
    SelectManager.On h m e
      = (updCore h m (fun c =>
          { c with source := { c.source with right := c.source.right.set (c.source.right.length - 1) (Val.outerJoin l (nodes.On e)) } }), m) := by
  unfold SelectManager.On
  dsimp only
  rw [if_neg hne, hlast]

theorem on_noop_of_last_other (h : Heap) (m : SelectManager) (e : Val) (v : Val)
    (hlast : (ctxCore h m).source.right.getLast? = some v)
    (hne : (ctxCore h m).source.right.length ≠ 0)
    (hvi : ∀ l r, v ≠ Val.innerJoin l r) (hvo : ∀ l r, v ≠ Val.outerJoin l r) :
    SelectManager.On h m e = (h, m) := by
  unfold SelectManager.On
  dsimp only
  rw [if_neg hne, hlast]
  cases v with
  | innerJoin l r => exact absurd rfl (hvi l r)
  | outerJoin l r => exact absurd rfl (hvo l r)
  | null => rfl
  | str s => rfl
  | vint n => rfl
  | relation n => rfl
  | column n => rfl
  | star => rfl
  | attributeNode n r => rfl
  | literal n => rfl
  | grouping n => rfl
  | onNode n => rfl
  | havingNode n => rfl
  | limitNode n => rfl
  | offsetNode n => rfl

/-- Claim C2: `On(expr)` sets the right side of the most recently appended
join in the current core's join list to an On node wrapping `expr`; it is a
no-op (state unchanged) when the join list is empty or when the last entry is
not an InnerJoin or OuterJoin node; and after
`InnerJoin(T1).InnerJoin(T2).On(expr)` only `T2`'s join carries the On node
while `T1`'s join's right side remains nil. -/
theorem C2_on_targets_last_join (h : Heap) (m : SelectManager) (e : Val) :
    ((ctxCore h m).source.right = [] → SelectManager.On h m e = (h, m))
    ∧ (∀ v : Val, (ctxCore h m).source.right.getLast? = some v →
        (∀ l r, v ≠ Val.innerJoin l r) → (∀ l r, v ≠ Val.outerJoin l r) →
        SelectManager.On h m e = (h, m))
    ∧ (∀ l r : Val, (ctxCore h m).source.right.getLast? = some (Val.innerJoin l r) →
        m.tree < h.length → m.context < (stmtAt h m.tree).cores.length →
        (SelectManager.On h m e).2 = m
        ∧ ctxCore (SelectManager.On h m e).1 m
            = { ctxCore h m with source := { (ctxCore h m).source with right := (ctxCore h m).source.right.set ((ctxCore h m).source.right.length - 1) (Val.innerJoin l (nodes.On e)) } })
    ∧ (∀ l r : Val, (ctxCore h m).source.right.getLast? = some (Val.outerJoin l r) →
        m.tree < h.length → m.context < (stmtAt h m.tree).cores.length →
        (SelectManager.On h m e).2 = m
        ∧ ctxCore (SelectManager.On h m e).1 m
            = { ctxCore h m with source := { (ctxCore h m).source with right := (ctxCore h m).source.right.set ((ctxCore h m).source.right.length - 1) (Val.outerJoin l (nodes.On e)) } })
    ∧ (∀ t1 t2 : String, m.tree < h.length → m.context < (stmtAt h m.tree).cores.length →
        ctxCore (SelectManager.On
            (SelectManager.InnerJoin
              (SelectManager.InnerJoin h m (TableRef.val (Val.relation t1))).1 m
              (TableRef.val (Val.relation t2))).1
            m e).1 m
          = { ctxCore h m with source := { (ctxCore h m).source with right :=
              (ctxCore h m).source.right
                ++ [Val.innerJoin (Val.relation t1) Val.null,
                    Val.innerJoin (Val.relation t2) (nodes.On e)] } }) := by
  refine ⟨?_, ?_, ?_, ?_, ?_⟩
  · intro h0
    unfold SelectManager.On
    dsimp only
    rw [h0]
    rfl
  · intro v hlast hvi hvo
    have hne : (ctxCore h m).source.right.length ≠ 0 := by
      intro hlen
      rw [List.length_eq_zero] at hlen
      rw [hlen] at hlast
      cases hlast
    exact on_noop_of_last_other h m e v hlast hne hvi hvo
  · intro l r hlast ht hc
    have hne : (ctxCore h m).source.right.length ≠ 0 := by
      intro hlen
      rw [List.length_eq_zero] at hlen
      rw [hlen] at hlast
      cases hlast
    rw [on_eq_of_last_inner h m e l r hlast hne]
    refine ⟨rfl, ?_⟩
    dsimp only
    exact ctxCore_updCore h m _ ht hc
  · intro l r hlast ht hc
    have hne : (ctxCore h m).source.right.length ≠ 0 := by
      intro hlen
      rw [List.length_eq_zero] at hlen
      rw [hlen] at hlast
      cases hlast
    rw [on_eq_of_last_outer h m e l r hlast hne]
    refine ⟨rfl, ?_⟩
    dsimp only
    exact ctxCore_updCore h m _ ht hc
  · intro t1 t2 ht hc
    have hctx1 : ctxCore (SelectManager.InnerJoin h m (TableRef.val (Val.relation t1))).1 m
        = { ctxCore h m with source := { (ctxCore h m).source with right := (ctxCore h m).source.right ++ [Val.innerJoin (Val.relation t1) Val.null] } } := by
      unfold SelectManager.InnerJoin
      dsimp only
      exact ctxCore_updCore h m _ ht hc
    have ht1 : m.tree < (SelectManager.InnerJoin h m (TableRef.val (Val.relation t1))).1.length := by
      unfold SelectManager.InnerJoin
      dsimp only
      rw [length_updCore]
      exact ht
    have hc1 : m.context
        < (stmtAt (SelectManager.InnerJoin h m (TableRef.val (Val.relation t1))).1 m.tree).cores.length := by
      unfold SelectManager.InnerJoin
      dsimp only
      rw [cores_length_updCore h m _ ht]
      exact hc
    set h1 := (SelectManager.InnerJoin h m (TableRef.val (Val.relation t1))).1 with hh1
    have hctx2 : ctxCore (SelectManager.InnerJoin h1 m (TableRef.val (Val.relation t2))).1 m
        = { ctxCore h1 m with source := { (ctxCore h1 m).source with right := (ctxCore h1 m).source.right ++ [Val.innerJoin (Val.relation t2) Val.null] } } := by
      unfold SelectManager.InnerJoin
      dsimp only
      exact ctxCore_updCore h1 m _ ht1 hc1
    have ht2 : m.tree < (SelectManager.InnerJoin h1 m (TableRef.val (Val.relation t2))).1.length := by
      unfold SelectManager.InnerJoin
      dsimp only
      rw [length_updCore]
      exact ht1
    have hc2 : m.context
        < (stmtAt (SelectManager.InnerJoin h1 m (TableRef.val (Val.relation t2))).1 m.tree).cores.length := by
      unfold SelectManager.InnerJoin
      dsimp only
      rw [cores_length_updCore h1 m _ ht1]
      exact hc1
    set h2 := (SelectManager.InnerJoin h1 m (TableRef.val (Val.relation t2))).1 with hh2
    have hright2 : (ctxCore h2 m).source.right
        = ((ctxCore h m).source.right ++ [Val.innerJoin (Val.relation t1) Val.null])
            ++ [Val.innerJoin (Val.relation t2) Val.null] := by
      rw [hctx2, hctx1]
    have hlast2 : (ctxCore h2 m).source.right.getLast?
        = some (Val.innerJoin (Val.relation t2) Val.null) := by
      rw [hright2]
      exact list_getLast?_concat _ _
    have hne2 : (ctxCore h2 m).source.right.length ≠ 0 := by
      rw [hright2]
      simp
    rw [on_eq_of_last_inner h2 m e _ _ hlast2 hne2]
    dsimp only
    have hupd := ctxCore_updCore h2 m (fun c => { c with source := { c.source with right := c.source.right.set (c.source.right.length - 1) (Val.innerJoin (Val.relation t2) (nodes.On e)) } }) ht2 hc2
    rw [hupd]
    dsimp only
    rw [hright2, hctx2, hctx1]
    dsimp only
    have hlen : (((ctxCore h m).source.right ++ [Val.innerJoin (Val.relation t1) Val.null])
          ++ [Val.innerJoin (Val.relation t2) Val.null]).length - 1
        = ((ctxCore h m).source.right ++ [Val.innerJoin (Val.relation t1) Val.null]).length := by
      simp
    rw [hlen, list_set_len_concat, List.append_assoc]
    rfl

/-- Claim C2 witness: on the fresh `users` builder, `On` with no joins is a
no-op, and after `InnerJoin("orders").InnerJoin("items").On(e)` only the
`items` join carries the On node while the `orders` join's right side is
nil. -/
theorem C2_on_targets_last_join_witness :
    (SelectManager.On (Selection [] (nodes.Relation "users")).1
        (Selection [] (nodes.Relation "users")).2 (Val.str "a = b")
      = ((Selection [] (nodes.Relation "users")).1, (Selection [] (nodes.Relation "users")).2))
    ∧ (ctxCore (SelectManager.On
          (SelectManager.InnerJoin
            (SelectManager.InnerJoin (Selection [] (nodes.Relation "users")).1
              (Selection [] (nodes.Relation "users")).2
              (TableRef.val (Val.relation "orders"))).1
            (Selection [] (nodes.Relation "users")).2
            (TableRef.val (Val.relation "items"))).1
          (Selection [] (nodes.Relation "users")).2 (Val.str "a = b")).1
        (Selection [] (nodes.Relation "users")).2
      = { ctxCore (Selection [] (nodes.Relation "users")).1
            (Selection [] (nodes.Relation "users")).2 with source :=
          { (ctxCore (Selection [] (nodes.Relation "users")).1
              (Selection [] (nodes.Relation "users")).2).source with right :=
              (ctxCore (Selection [] (nodes.Relation "users")).1
                (Selection [] (nodes.Relation "users")).2).source.right
                ++ [Val.innerJoin (Val.relation "orders") Val.null,
                    Val.innerJoin (Val.relation "items") (nodes.On (Val.str "a = b"))] } }) := by
  have H := C2_on_targets_last_join (Selection [] (nodes.Relation "users")).1
    (Selection [] (nodes.Relation "users")).2 (Val.str "a = b")
  exact ⟨H.1 (by decide), H.2.2.2.2 "orders" "items" (by decide) (by decide)⟩

theorem strLit_of_not_str (v : Val) (hv : ∀ s : String, v ≠ Val.str s) : strLit v = v := by
  cases v with
  | str s => exact absurd rfl (hv s)
  | null => rfl
  | vint n => rfl
  | relation n => rfl
  | column n => rfl
  | star => rfl
  | attributeNode n r => rfl
  | literal n => rfl
  | grouping n => rfl
  | onNode n => rfl
  | innerJoin l r => rfl
  | outerJoin l r => rfl
  | havingNode n => rfl
  | limitNode n => rfl
  | offsetNode n => rfl

theorem toSql_length (reg : List Val) (h : Heap) (m : SelectManager) :
    (SelectManager.ToSql reg h m).1.length = h.length := by
  rw [toSql_heap]
  exact length_updStmtAt h m.tree _

theorem toSql_cores_length (reg : List Val) (h : Heap) (m : SelectManager)
    (ht : m.tree < h.length) :
    (stmtAt (SelectManager.ToSql reg h m).1 m.tree).cores.length
      = (stmtAt h m.tree).cores.length := by
  rw [toSql_heap, stmtAt_updStmtAt_eq _ _ _ ht]
  exact List.length_map _ _

theorem ctxCore_congr (h : Heap) (m m' : SelectManager)
    (h1 : m'.tree = m.tree) (h2 : m'.context = m.context) : ctxCore h m' = ctxCore h m := by
  unfold ctxCore
  rw [h1, h2]

theorem ctxCore_toSql (reg : List Val) (h : Heap) (m : SelectManager)
    (ht : m.tree < h.length) (hc : m.context < (stmtAt h m.tree).cores.length) :
    ctxCore (SelectManager.ToSql reg h m).1 m = injectStar (ctxCore h m) := by
  rw [toSql_heap]
  unfold ctxCore
  rw [stmtAt_updStmtAt_eq _ _ _ ht]
  exact list_getD_map _ _ _ default _ hc

/-- One `ToSql` call viewed as a state transformer (heap and builder after
the call), used to express that later renders never disturb the injected
star projection. -/
def stepToSql (reg : List Val) (p : Heap × SelectManager) : Heap × SelectManager :=
  ((SelectManager.ToSql reg p.1 p.2).1, (SelectManager.ToSql reg p.1 p.2).2.1)

theorem stepToSql_invariant (reg : List Val) (m : SelectManager) (ps : List Val)
    (p : Heap × SelectManager)
    (htr : p.2.tree = m.tree) (hcx : p.2.context = m.context)
    (ht : m.tree < p.1.length) (hc : m.context < (stmtAt p.1 m.tree).cores.length)
    (hproj : (ctxCore p.1 p.2).projections = ps) (hne : ps ≠ []) :
    (stepToSql reg p).2.tree = m.tree ∧ (stepToSql reg p).2.context = m.context
    ∧ m.tree < (stepToSql reg p).1.length
    ∧ m.context < (stmtAt (stepToSql reg p).1 m.tree).cores.length
    ∧ (ctxCore (stepToSql reg p).1 (stepToSql reg p).2).projections = ps := by
  have ht' : p.2.tree < p.1.length := by rw [htr]; exact ht
  have hc' : p.2.context < (stmtAt p.1 p.2.tree).cores.length := by
    rw [htr, hcx]; exact hc
  have hmgr : (stepToSql reg p).2 = { p.2 with engine := effectiveEngine p.2 } :=
    toSql_mgr reg p.1 p.2
  refine ⟨?_, ?_, ?_, ?_, ?_⟩
  · rw [hmgr]; exact htr
  · rw [hmgr]; exact hcx
  · show m.tree < (SelectManager.ToSql reg p.1 p.2).1.length
    rw [toSql_length]; exact ht
  · show m.context < (stmtAt (SelectManager.ToSql reg p.1 p.2).1 m.tree).cores.length
    have := toSql_cores_length reg p.1 p.2 ht'
    rw [htr] at this
    rw [this]; exact hc
  · have hcg : ctxCore (stepToSql reg p).1 (stepToSql reg p).2
        = ctxCore (stepToSql reg p).1 p.2 := by
      apply ctxCore_congr
      · rw [hmgr]
      · rw [hmgr]
    rw [hcg]
    show (ctxCore (SelectManager.ToSql reg p.1 p.2).1 p.2).projections = ps
    rw [ctxCore_toSql reg p.1 p.2 ht' hc']
    rw [injectStar_of_ne _ (by rw [hproj]; exact hne)]
    exact hproj

/-- Claim C10: for a builder whose current core has empty Projections, the
star attribute injected by one `ToSql()` call stays in the core permanently —
a subsequent `Project(x)` yields Projections `[Attribute(Star, relation), x]`,
and any number of later `ToSql()` renders leave that list (star first, then
`x`) in place. -/
theorem C10_star_injection_persists (reg : List Val) (h : Heap) (m : SelectManager) (x : Val)
    (ht : m.tree < h.length) (hc : m.context < (stmtAt h m.tree).cores.length)
    (hp : (ctxCore h m).projections = [])
    (hx : ∀ s : String, x ≠ Val.str s) :
    (ctxCore (SelectManager.Project (SelectManager.ToSql reg h m).1
          (SelectManager.ToSql reg h m).2.1 [x]).1
        (SelectManager.Project (SelectManager.ToSql reg h m).1
          (SelectManager.ToSql reg h m).2.1 [x]).2).projections
      = [nodes.Attribute nodes.Star (ctxCore h m).relation, x]
    ∧ ∀ k : Nat,
        (ctxCore ((stepToSql reg)^[k] (SelectManager.Project (SelectManager.ToSql reg h m).1
              (SelectManager.ToSql reg h m).2.1 [x])).1
            ((stepToSql reg)^[k] (SelectManager.Project (SelectManager.ToSql reg h m).1
              (SelectManager.ToSql reg h m).2.1 [x])).2).projections
          = [nodes.Attribute nodes.Star (ctxCore h m).relation, x] := by
  have hm1 : (SelectManager.ToSql reg h m).2.1 = { m with engine := effectiveEngine m } :=
    toSql_mgr reg h m
  have ht1 : m.tree < (SelectManager.ToSql reg h m).1.length := by
    rw [toSql_length]; exact ht
  have hc1 : m.context < (stmtAt (SelectManager.ToSql reg h m).1 m.tree).cores.length := by
    rw [toSql_cores_length reg h m ht]; exact hc
  have hctx1 : ctxCore (SelectManager.ToSql reg h m).1 m
      = { ctxCore h m with projections := [nodes.Attribute nodes.Star (ctxCore h m).relation] } := by
    rw [ctxCore_toSql reg h m ht hc]
    unfold injectStar
    rw [if_pos hp, hp]
    rfl
  have hproj : (ctxCore (SelectManager.Project (SelectManager.ToSql reg h m).1
        (SelectManager.ToSql reg h m).2.1 [x]).1
      (SelectManager.Project (SelectManager.ToSql reg h m).1
        (SelectManager.ToSql reg h m).2.1 [x]).2).projections
      = [nodes.Attribute nodes.Star (ctxCore h m).relation, x] := by
    show (ctxCore (updCore (SelectManager.ToSql reg h m).1 (SelectManager.ToSql reg h m).2.1
        (fun c => { c with projections := c.projections ++ [strLit x] }))
        (SelectManager.ToSql reg h m).2.1).projections
      = [nodes.Attribute nodes.Star (ctxCore h m).relation, x]
    have htA : ((SelectManager.ToSql reg h m).2.1).tree < (SelectManager.ToSql reg h m).1.length := by
      rw [hm1]; exact ht1
    have hcA : ((SelectManager.ToSql reg h m).2.1).context
        < (stmtAt (SelectManager.ToSql reg h m).1 ((SelectManager.ToSql reg h m).2.1).tree).cores.length := by
      rw [hm1]; exact hc1
    rw [ctxCore_updCore _ _ _ htA hcA]
    have hcg : ctxCore (SelectManager.ToSql reg h m).1 (SelectManager.ToSql reg h m).2.1
        = ctxCore (SelectManager.ToSql reg h m).1 m := by
      apply ctxCore_congr
      · rw [hm1]
      · rw [hm1]
    dsimp only
    rw [hcg, hctx1, strLit_of_not_str x hx]
    rfl
  refine ⟨hproj, ?_⟩
  have hmain : ∀ k : Nat,
      ((stepToSql reg)^[k] (SelectManager.Project (SelectManager.ToSql reg h m).1
          (SelectManager.ToSql reg h m).2.1 [x])).2.tree = m.tree
      ∧ ((stepToSql reg)^[k] (SelectManager.Project (SelectManager.ToSql reg h m).1
          (SelectManager.ToSql reg h m).2.1 [x])).2.context = m.context
      ∧ m.tree < ((stepToSql reg)^[k] (SelectManager.Project (SelectManager.ToSql reg h m).1
          (SelectManager.ToSql reg h m).2.1 [x])).1.length
      ∧ m.context < (stmtAt ((stepToSql reg)^[k] (SelectManager.Project (SelectManager.ToSql reg h m).1
          (SelectManager.ToSql reg h m).2.1 [x])).1 m.tree).cores.length
      ∧ (ctxCore ((stepToSql reg)^[k] (SelectManager.Project (SelectManager.ToSql reg h m).1
            (SelectManager.ToSql reg h m).2.1 [x])).1
          ((stepToSql reg)^[k] (SelectManager.Project (SelectManager.ToSql reg h m).1
            (SelectManager.ToSql reg h m).2.1 [x])).2).projections
        = [nodes.Attribute nodes.Star (ctxCore h m).relation, x] := by
    intro k
    induction k with
    | zero =>
        refine ⟨?_, ?_, ?_, ?_, hproj⟩
        · show (SelectManager.Project (SelectManager.ToSql reg h m).1
            (SelectManager.ToSql reg h m).2.1 [x]).2.tree = m.tree
          show ((SelectManager.ToSql reg h m).2.1).tree = m.tree
          rw [hm1]
        · show ((SelectManager.ToSql reg h m).2.1).context = m.context
          rw [hm1]
        · show m.tree < (updCore (SelectManager.ToSql reg h m).1
            (SelectManager.ToSql reg h m).2.1
            (fun c => { c with projections := c.projections ++ [strLit x] })).length
          rw [length_updCore]
          exact ht1
        · show m.context < (stmtAt (updCore (SelectManager.ToSql reg h m).1
            (SelectManager.ToSql reg h m).2.1
            (fun c => { c with projections := c.projections ++ [strLit x] })) m.tree).cores.length
          have hcov : m.tree = ((SelectManager.ToSql reg h m).2.1).tree := by rw [hm1]
          rw [hcov, cores_length_updCore _ _ _ (by rw [hm1]; exact ht1), ← hcov]
          exact hc1
    | succ k ih =>
        rw [Function.iterate_succ_apply']
        exact stepToSql_invariant reg m _ _ ih.1 ih.2.1 ih.2.2.1 ih.2.2.2.1 ih.2.2.2.2 (by
          intro hcon
          cases hcon)
  intro k
  exact (hmain k).2.2.2.2

/-- Claim C10 witness: rendering the fresh `users` builder once, then
projecting the `"users"."id"` attribute, leaves Projections as the injected
star attribute followed by the projected attribute. -/
theorem C10_star_injection_persists_witness :
    (ctxCore (SelectManager.Project
          (SelectManager.ToSql [Val.str "to_sql"] (Selection [] (nodes.Relation "users")).1
            (Selection [] (nodes.Relation "users")).2).1
          (SelectManager.ToSql [Val.str "to_sql"] (Selection [] (nodes.Relation "users")).1
            (Selection [] (nodes.Relation "users")).2).2.1
          [Accessor.call (Table "users") (Val.str "id")]).1
        (SelectManager.Project
          (SelectManager.ToSql [Val.str "to_sql"] (Selection [] (nodes.Relation "users")).1
            (Selection [] (nodes.Relation "users")).2).1
          (SelectManager.ToSql [Val.str "to_sql"] (Selection [] (nodes.Relation "users")).1
            (Selection [] (nodes.Relation "users")).2).2.1
          [Accessor.call (Table "users") (Val.str "id")]).2).projections
      = [nodes.Attribute nodes.Star
          (ctxCore (Selection [] (nodes.Relation "users")).1
            (Selection [] (nodes.Relation "users")).2).relation,
         Accessor.call (Table "users") (Val.str "id")] := by
  have H := C10_star_injection_persists [Val.str "to_sql"]
    (Selection [] (nodes.Relation "users")).1 (Selection [] (nodes.Relation "users")).2
    (Accessor.call (Table "users") (Val.str "id"))
    (by decide) (by decide) (by decide) (by intro s hs; cases hs)
  exact H.1

end Codex
